import Mathlib

/-!
# Verification of the Urbanium multi-agent concurrency subsystem

Shallow embedding of `urbanium/multiagent/interactions.py`,
`urbanium/multiagent/messaging.py` and the decision-cycle portion of
`urbanium/multiagent/runner.py`, together with proofs of the testable
properties stated in the specification.

Modelling conventions:
* Python `dict`s are association lists in insertion order; assigning an
  existing key replaces its value in place, a new key is appended at the
  end (Python 3.7+ dict semantics).
* `datetime.now()` is an explicit rational timestamp argument `now`;
  elapsed seconds are rational numbers (exact stand-ins for the floats
  in the source, whose claims never hinge on rounding).
* `asyncio.Queue` mailboxes are FIFO lists: `put` appends at the tail,
  `get_nowait` pops the head.
* Fallible calls are `Except String`; a caught Python exception is a
  handled `.error` value.
* Opaque `Any` payloads (message content, interaction effects/context)
  are modelled as string-valued association lists.
-/

/-- Insertion-order association-list lookup (Python `d.get(k)` / `k in d`). -/
def alistLookup {α : Type} (k : String) : List (String × α) → Option α
  | [] => none
  | (k', v) :: rest => if k' = k then some v else alistLookup k rest

/-- Insertion-order association-list assignment `d[k] = v`: replaces the
value in place when the key is present, appends otherwise. -/
def alistInsert {α : Type} (k : String) (v : α) : List (String × α) → List (String × α)
  | [] => [(k, v)]
  | (k', v') :: rest =>
    if k' = k then (k, v) :: rest else (k', v') :: alistInsert k v rest

/-- `d.pop(k, None)`: the removed value (if any) and the remaining entries. -/
def alistPop {α : Type} (k : String) : List (String × α) → Option α × List (String × α)
  | [] => (none, [])
  | (k', v) :: rest =>
    if k' = k then (some v, rest)
    else
      let r := alistPop k rest
      (r.1, (k', v) :: r.2)

/-- `old.update(new)`: fold the new bindings into the old dict. -/
def dictUpdate (old new : List (String × String)) : List (String × String) :=
  new.foldl (fun acc p => alistInsert p.1 p.2 acc) old

/-- Python slice `l[-n:]` (note `l[-0:]` is the whole list). -/
def pySliceLast {α : Type} (n : Nat) (l : List α) : List α :=
  if n = 0 then l else l.drop (l.length - n)

/-- The history-bounding idiom shared by `InteractionManager` and
`MessageBus`: append, then keep only the last `maxH` entries when the
length exceeds `maxH`. -/
def boundedAppend {α : Type} (h : List α) (x : α) (maxH : Nat) : List α :=
  let h' := h ++ [x]
  if h'.length > maxH then pySliceLast maxH h' else h'

/-- `interactions.py` — `InteractionType` enum. -/
inductive InteractionType where
  | CONVERSATION | GREETING | FRIENDSHIP | CONFLICT
  | TRADE | EMPLOYMENT | SERVICE
  | SHARE_KNOWLEDGE | ASK_DIRECTION | GOSSIP
  | HELP | COLLABORATION | MENTORING
deriving DecidableEq, Repr

/-- `interactions.py` — the `Interaction` dataclass.  `id` and
`start_time` are random/clock default factories in the source, so they
are explicit constructor inputs here. -/
structure Interaction where
  type : InteractionType
  initiator_id : String
  participant_ids : List String
  id : String
  start_time : Rat
  end_time : Option Rat := none
  outcome : String := "pending"
  effects : List (String × String) := []
  context : List (String × String) := []
deriving DecidableEq, Repr

/-- `Interaction.complete(outcome, effects)` — stamps the end time, sets
the outcome, and merges the effects when they are truthy (a non-`None`,
non-empty dict). -/
def Interaction.complete (i : Interaction) (outcome : String)
    (effects : Option (List (String × String))) (now : Rat) : Interaction :=
  { i with
    end_time := some now
    outcome := outcome
    effects :=
      match effects with
      | none => i.effects
      | some l => if l.isEmpty then i.effects else dictUpdate i.effects l }

/-- `Interaction.is_active` — an interaction is active while `end_time`
is unset. -/
def Interaction.is_active (i : Interaction) : Bool :=
  i.end_time.isNone

/-- Mutable state of `InteractionManager.__init__`. -/
structure IMState where
  active : List (String × Interaction)
  history : List Interaction
  max_history : Nat
  cooldowns : List (String × List (InteractionType × Rat))
  total_interactions : Nat
  successful_interactions : Nat
deriving DecidableEq, Repr

/-- Fresh `InteractionManager()` state. -/
def IMState.init : IMState :=
  { active := [], history := [], max_history := 5000, cooldowns := [],
    total_interactions := 0, successful_interactions := 0 }

/-- Lookup in the per-agent cooldown table (a dict of dicts keyed by
`InteractionType`). -/
def cdLookup (ty : InteractionType) : List (InteractionType × Rat) → Option Rat
  | [] => none
  | (ty', t) :: rest => if ty' = ty then some t else cdLookup ty rest

/-- Assignment into the inner cooldown dict. -/
def cdInsert (ty : InteractionType) (t : Rat) :
    List (InteractionType × Rat) → List (InteractionType × Rat)
  | [] => [(ty, t)]
  | (ty', t') :: rest =>
    if ty' = ty then (ty, t) :: rest else (ty', t') :: cdInsert ty t rest

/-- `InteractionManager.can_interact(agent_id, other_id, interaction_type,
cooldown_seconds)` at clock reading `now`: false when either party is a
participant of any active interaction, or when the initiator's last
completed interaction of this type was less than `cooldown_seconds` ago
(a `datetime` is always truthy, so `if last_time:` is a presence test). -/
def can_interact (st : IMState) (agent_id other_id : String)
    (interaction_type : InteractionType) (cooldown_seconds : Rat) (now : Rat) : Bool :=
  if st.active.any (fun p =>
      decide (agent_id ∈ p.2.participant_ids) || decide (other_id ∈ p.2.participant_ids)) then
    false
  else
    match alistLookup agent_id st.cooldowns with
    | none => true
    | some inner =>
      match cdLookup interaction_type inner with
      | none => true
      | some last_time => !decide (now - last_time < cooldown_seconds)

/-- `InteractionManager.start_interaction` — records a fresh pending
interaction in the active map (keyed by its id) and bumps the total
counter.  It performs no exclusivity re-check. -/
def start_interaction (st : IMState) (interaction_type : InteractionType)
    (initiator_id : String) (participant_ids : List String)
    (context : List (String × String)) (id : String) (now : Rat) :
    Interaction × IMState :=
  let i : Interaction :=
    { type := interaction_type, initiator_id := initiator_id,
      participant_ids := participant_ids, id := id, start_time := now,
      context := context }
  (i, { st with
        active := alistInsert id i st.active
        total_interactions := st.total_interactions + 1 })

/-- The cooldown-stamping loop of `complete_interaction`: for every
participant, set `cooldowns[agent][type] = now` (creating the inner dict
when absent). -/
def stampCooldowns (parts : List String) (ty : InteractionType) (now : Rat)
    (cds : List (String × List (InteractionType × Rat))) :
    List (String × List (InteractionType × Rat)) :=
  parts.foldl
    (fun acc a =>
      alistInsert a (cdInsert ty now ((alistLookup a acc).getD [])) acc)
    cds

/-- `InteractionManager.complete_interaction(interaction_id, outcome,
effects)` at clock reading `now`.  Pops the interaction from the active
map (returning `none` and changing nothing when absent), completes it,
stamps every participant's cooldown, appends it to the bounded history,
and counts the success outcomes. -/
def complete_interaction (st : IMState) (interaction_id : String)
    (outcome : String) (effects : Option (List (String × String))) (now : Rat) :
    Option Interaction × IMState :=
  match alistPop interaction_id st.active with
  | (none, _) => (none, st)
  | (some i0, active') =>
    let i := i0.complete outcome effects now
    (some i,
     { st with
       active := active'
       cooldowns := stampCooldowns i.participant_ids i.type now st.cooldowns
       history := boundedAppend st.history i st.max_history
       successful_interactions :=
         if outcome ∈ ["success", "positive", "completed"] then
           st.successful_interactions + 1
         else st.successful_interactions })

/-- `InteractionManager.get_relationship_score(agent_a, agent_b)`:
+0.1 per shared positive outcome, −0.15 per shared negative outcome,
clamped to [−1, 1]; 0 when the two agents share no history. -/
def get_relationship_score (st : IMState) (agent_a agent_b : String) : Rat :=
  let interactions := st.history.filter (fun i =>
    decide (agent_a ∈ i.participant_ids) && decide (agent_b ∈ i.participant_ids))
  if interactions.isEmpty then 0
  else
    let score := interactions.foldl
      (fun s i =>
        if i.outcome ∈ ["success", "positive", "completed"] then s + 0.1
        else if i.outcome ∈ ["failure", "negative", "conflict"] then s - 0.15
        else s)
      0
    max (-1) (min 1 score)

/-- `messaging.py` — `MessageType` enum. -/
inductive MessageType where
  | GREET | CHAT | INVITE | ACCEPT | DECLINE
  | TRADE_OFFER | TRADE_ACCEPT | TRADE_REJECT | HIRE_OFFER | SERVICE_REQUEST
  | SHARE_INFO | ASK_INFO | GOSSIP
  | MEET_REQUEST | LOCATION_UPDATE
  | BROADCAST | DIRECT | ACK
deriving DecidableEq, Repr

/-- `messaging.py` — the `Message` dataclass.  The uuid `id` and the
`timestamp` are default factories in the source, so they are explicit
fields here. -/
structure Message where
  sender_id : String
  message_type : MessageType
  content : List (String × String)
  id : String
  receiver_id : Option String := none
  timestamp : Rat := 0
  requires_response : Bool := false
  expires_at : Option Rat := none
  metadata : List (String × String) := []
deriving DecidableEq, Repr

/-- `Message.is_expired()` at clock reading `now`. -/
def Message.is_expired (m : Message) (now : Rat) : Bool :=
  match m.expires_at with
  | none => false
  | some t => decide (t < now)

/-- `Message.is_broadcast()` — no receiver id means broadcast. -/
def Message.is_broadcast (m : Message) : Bool :=
  m.receiver_id.isNone

/-- Mutable state of `MessageBus.__init__` (handlers and topic
subscriptions are omitted: no operation relevant to the verified
properties reads them). -/
structure BusState where
  inboxes : List (String × List Message)
  agents : List String
  history : List Message
  max_history : Nat
  messages_sent : Nat
  messages_delivered : Nat
deriving DecidableEq, Repr

/-- Fresh `MessageBus()` state. -/
def BusState.init : BusState :=
  { inboxes := [], agents := [], history := [], max_history := 1000,
    messages_sent := 0, messages_delivered := 0 }

/-- `MessageBus.register_agent(agent_id)` — idempotent: creates the
mailbox and records the agent only when it has no inbox yet. -/
def register_agent (st : BusState) (agent_id : String) : BusState :=
  match alistLookup agent_id st.inboxes with
  | some _ => st
  | none =>
    { st with
      inboxes := alistInsert agent_id [] st.inboxes
      agents := if agent_id ∈ st.agents then st.agents else st.agents ++ [agent_id] }

/-- `MessageBus.unregister_agent(agent_id)` — drops the mailbox and the
registration. -/
def unregister_agent (st : BusState) (agent_id : String) : BusState :=
  { st with
    inboxes := (alistPop agent_id st.inboxes).2
    agents := st.agents.filter (· ≠ agent_id) }

/-- `MessageBus._direct_send` — enqueue into the receiver's mailbox, or
return `False` (logging a warning) when the receiver has no inbox. -/
def direct_send (st : BusState) (receiver : String) (m : Message) : Bool × BusState :=
  match alistLookup receiver st.inboxes with
  | none => (false, st)
  | some q =>
    (true,
     { st with
       inboxes := alistInsert receiver (q ++ [m]) st.inboxes
       messages_delivered := st.messages_delivered + 1 })

/-- The delivery loop of `MessageBus._broadcast`: put the message into
every mailbox except the sender's, counting deliveries. -/
def broadcastDeliver (sender : String) (m : Message) :
    List (String × List Message) → List (String × List Message) × Nat
  | [] => ([], 0)
  | (aid, q) :: rest =>
    let r := broadcastDeliver sender m rest
    if aid = sender then ((aid, q) :: r.1, r.2)
    else ((aid, q ++ [m]) :: r.1, r.2 + 1)

/-- `MessageBus._broadcast` — delivers to all registered mailboxes
except the sender's and reports success iff at least one delivery
happened. -/
def broadcast (st : BusState) (m : Message) : Bool × BusState :=
  let r := broadcastDeliver m.sender_id m st.inboxes
  (decide (r.2 > 0),
   { st with inboxes := r.1, messages_delivered := st.messages_delivered + r.2 })

/-- `MessageBus.send(message)` at clock reading `now` — drops expired
messages (returning `False` with no other effect), otherwise counts the
send, appends to the bounded history, and dispatches as broadcast or
direct.  It is a total function: no code path raises. -/
def MessageBus.send (st : BusState) (now : Rat) (m : Message) : Bool × BusState :=
  if m.is_expired now then (false, st)
  else
    let st1 :=
      { st with
        messages_sent := st.messages_sent + 1
        history := boundedAppend st.history m st.max_history }
    match m.receiver_id with
    | none => broadcast st1 m
    | some r => direct_send st1 r m

/-- The mailbox of an agent, empty when unregistered. -/
def inboxOf (st : BusState) (agent_id : String) : List Message :=
  (alistLookup agent_id st.inboxes).getD []

/-- `queue.get_nowait()` on a FIFO mailbox: the head message and the
remaining queue, or `none` when empty. -/
def get_nowait (q : List Message) : Option (Message × List Message) :=
  match q with
  | [] => none
  | m :: rest => some (m, rest)

/-- The order in which `_process_messages` dequeues a mailbox: repeated
`get_nowait` until empty (fuelled by the queue length, which bounds the
number of pops). -/
def drainAux : Nat → List Message → List Message
  | 0, _ => []
  | Nat.succ n, q =>
    match get_nowait q with
    | none => []
    | some (m, rest) => m :: drainAux n rest

/-- The full dequeue sequence of a mailbox. -/
def drain (q : List Message) : List Message := drainAux q.length q

/-- A batch of `send` calls (arbitrary senders/payloads) applied in
order. -/
def applySends (st : BusState) (ops : List (Rat × Message)) : BusState :=
  ops.foldl (fun s p => (MessageBus.send s p.1 p.2).2) st

/-- `runner.py` — the `AgentState` enum. -/
inductive AgentState where
  | IDLE | THINKING | ACTING | INTERACTING | WAITING | RESTING | BUSY
deriving DecidableEq, Repr

/-- An action candidate as the runner sees it: `execute` either returns
an (opaque) result or raises. -/
structure RAction where
  execute : Except String Nat
deriving Repr

/-- The optional AI decision provider (`context.ai_model`): its
`select_action` call may return an action, return `None`, or raise. -/
structure AIModel where
  use_ai : Bool
  select_action : List RAction → Except String (Option RAction)

/-- The citizen's fallback decision provider
(`citizen.decision_model.select_action`), which is invoked outside any
`try` block in `_decide_action` and may itself raise. -/
structure DecisionModel where
  select_action : List RAction → Except String (Option RAction)

/-- The decision-relevant slice of `AgentContext`. -/
structure RunnerCtx where
  ai_model : Option AIModel
  decision_model : Option DecisionModel
  think_interval : Rat

/-- The decision-relevant mutable fields of the runner and its context. -/
structure RunnerStats where
  state : AgentState
  last_decision_time : Rat
  last_action_time : Rat
  actions_taken : Nat
deriving DecidableEq, Repr

/-- `AgentRunner._decide_action(local_state, available_actions)`.
`acts` is the `available_actions` list computed by
`_get_available_actions`; `r` is the oracle for `random.choice` (the
element at index `r mod length`).  An exception inside the AI call is
caught and control falls through to the fallback chain; an exception in
the citizen's decision model propagates (`.error`). -/
def decide_action (ctx : RunnerCtx) (acts : List RAction) (r : Nat) :
    Except String (Option RAction) :=
  if acts.isEmpty then Except.ok none
  else
    let fallback : Except String (Option RAction) :=
      match ctx.decision_model with
      | some dm => dm.select_action acts
      | none => Except.ok (acts.get? (r % acts.length))
    match ctx.ai_model with
    | some ai =>
      if ai.use_ai then
        match ai.select_action acts with
        | Except.ok a => Except.ok a
        | Except.error _ => fallback
      else fallback
    | none => fallback

/-- `AgentRunner._execute_action(action, local_state)` at clock reading
`now`.  Sets `ACTING`, runs the action; on success it bumps
`actions_taken`, stamps `last_action_time`, and invokes `on_action`; any
exception (from the action or the callback) is caught and logged; the
`finally` clause restores `IDLE`. -/
def execute_action (on_action : Except String Unit) (s : RunnerStats)
    (now : Rat) (a : RAction) : RunnerStats :=
  match a.execute with
  | Except.error _ => { s with state := AgentState.IDLE }
  | Except.ok _ =>
    match on_action with
    | Except.error _ =>
      { s with
        state := AgentState.IDLE
        actions_taken := s.actions_taken + 1
        last_action_time := now }
    | Except.ok _ =>
      { s with
        state := AgentState.IDLE
        actions_taken := s.actions_taken + 1
        last_action_time := now }

/-- `AgentRunner._think_and_act()` at clock reading `now`: skip when the
think interval has not elapsed; otherwise enter `THINKING`, stamp the
decision time, decide, possibly execute; the `finally` clause restores
`IDLE` even when the decision raises, in which case the exception keeps
propagating (the second component). -/
def think_and_act (ctx : RunnerCtx) (acts : List RAction) (r : Nat)
    (on_action : Except String Unit) (s : RunnerStats) (now : Rat) :
    RunnerStats × Option String :=
  if now - s.last_decision_time < ctx.think_interval then (s, none)
  else
    let s1 := { s with state := AgentState.THINKING, last_decision_time := now }
    match decide_action ctx acts r with
    | Except.error e => ({ s1 with state := AgentState.IDLE }, some e)
    | Except.ok none => ({ s1 with state := AgentState.IDLE }, none)
    | Except.ok (some a) => (execute_action on_action s1 now a, none)

/-- The think step of one `_run_loop` iteration: `_think_and_act` runs
only from `IDLE`/`WAITING`, and the loop's `except Exception` handler
absorbs any exception it propagates (the loop logs, backs off and
continues), so the iteration is a total function into the next state. -/
def run_loop_think (ctx : RunnerCtx) (acts : List RAction) (r : Nat)
    (on_action : Except String Unit) (s : RunnerStats) (now : Rat) : RunnerStats :=
  if s.state = AgentState.IDLE ∨ s.state = AgentState.WAITING then
    (think_and_act ctx acts r on_action s now).1
  else s

/-- The interaction protocol the runners drive against the shared
`InteractionManager` (`_maybe_interact` / `_start_conversation`): a
start is guarded by a successful `can_interact(self, target)` check and
registers exactly the pair `[self, target]` (under cooperative
scheduling the check and the start run without interleaving: there is no
suspension point between them); completions may happen at any time.  The
clock reading, the random interaction id and the context are free. -/
inductive MStep : IMState → IMState → Prop
  | start (st : IMState) (a b : String) (ty : InteractionType) (cd now : Rat)
      (ctx : List (String × String)) (id : String)
      (hok : can_interact st a b ty cd now = true) :
      MStep st (start_interaction st ty a [a, b] ctx id now).2
  | complete (st : IMState) (id outcome : String)
      (effects : Option (List (String × String))) (now : Rat) :
      MStep st (complete_interaction st id outcome effects now).2

/-- Manager states reachable from a fresh manager under the runner
protocol. -/
def MReachable (st : IMState) : Prop :=
  Relation.ReflTransGen MStep IMState.init st

/-- Every agent is a participant of at most one active interaction. -/
def atMostOneActive (st : IMState) : Prop :=
  ∀ X : String,
    st.active.countP (fun p => decide (X ∈ p.2.participant_ids)) ≤ 1

/-- An agent's cooldown table holds the stamp `now` for `ty`. -/
def stampedAt (X : String) (ty : InteractionType) (now : Rat)
    (cds : List (String × List (InteractionType × Rat))) : Prop :=
  ∃ inner, alistLookup X cds = some inner ∧ cdLookup ty inner = some now

/-- A pending conversation between "a" and "b" (sample data for the
bounded-history witness). -/
def sampleActiveConv : Interaction :=
  { type := InteractionType.CONVERSATION
    initiator_id := "a"
    participant_ids := ["a", "b"]
    id := "i1"
    start_time := 0 }

/-- Two completed greetings (sample full history). -/
def sampleHist1 : Interaction :=
  { type := InteractionType.GREETING
    initiator_id := "a"
    participant_ids := ["a"]
    id := "h1"
    start_time := 0 }

/-- Second sample history entry. -/
def sampleHist2 : Interaction :=
  { type := InteractionType.GREETING
    initiator_id := "b"
    participant_ids := ["b"]
    id := "h2"
    start_time := 0 }

/-- Manager whose 2-slot history is full and with one active
interaction. -/
def sampleManagerFull : IMState :=
  { active := [("i1", sampleActiveConv)]
    history := [sampleHist1, sampleHist2]
    max_history := 2
    cooldowns := []
    total_interactions := 1
    successful_interactions := 0 }

/-- An already-sent greeting (sample full bus history). -/
def sampleMsg0 : Message :=
  { sender_id := "a"
    message_type := MessageType.GREET
    content := []
    id := "m0" }

/-- Bus with two registered agents whose 1-slot history is full. -/
def sampleBusFull : BusState :=
  { inboxes := [("a", []), ("b", [])]
    agents := ["a", "b"]
    history := [sampleMsg0]
    max_history := 1
    messages_sent := 1
    messages_delivered := 0 }

/-- A direct chat message from "a" to "b". -/
def sampleMsgDirect : Message :=
  { sender_id := "a"
    message_type := MessageType.CHAT
    content := []
    id := "m1"
    receiver_id := some "b" }

/-- A message that expired at time 0. -/
def sampleMsgExpired : Message :=
  { sender_id := "a"
    message_type := MessageType.CHAT
    content := []
    id := "m2"
    receiver_id := some "b"
    expires_at := some 0 }

/-- A direct message to an agent that is not registered. -/
def sampleMsgToGhost : Message :=
  { sender_id := "a"
    message_type := MessageType.CHAT
    content := []
    id := "m3"
    receiver_id := some "ghost" }

/-- A broadcast message from "a". -/
def sampleMsgBroadcast : Message :=
  { sender_id := "a"
    message_type := MessageType.BROADCAST
    content := []
    id := "m4" }

/-- A second direct chat message from "a" to "b". -/
def sampleMsgDirect2 : Message :=
  { sender_id := "a"
    message_type := MessageType.CHAT
    content := []
    id := "m5"
    receiver_id := some "b" }

/-- An AI decision provider that raises on every invocation. -/
def aiAlwaysRaises : AIModel :=
  { use_ai := true
    select_action := fun _ => Except.error "AI failure" }

/-- A citizen fallback decision model that raises on every invocation. -/
def dmAlwaysRaises : DecisionModel :=
  { select_action := fun _ => Except.error "fallback failure" }

/-- Runner context with a raising AI provider and no citizen fallback
model (so `_decide_action` falls back to `random.choice`). -/
def ctxOnlyAI : RunnerCtx :=
  { ai_model := some aiAlwaysRaises
    decision_model := none
    think_interval := 1 }

/-- Runner context in which the AI provider and the citizen fallback
model both always raise. -/
def ctxBothRaise : RunnerCtx :=
  { ai_model := some aiAlwaysRaises
    decision_model := some dmAlwaysRaises
    think_interval := 1 }

/-- An available action whose execution succeeds. -/
def actOk : RAction := { execute := Except.ok 0 }

/-- A runner at rest at time 0 with no action yet taken. -/
def statsIdle0 : RunnerStats :=
  { state := AgentState.IDLE
    last_decision_time := 0
    last_action_time := 0
    actions_taken := 0 }

theorem countP_alistInsert_le {α : Type} (p : String × α → Bool) (k : String) (v : α)
    (l : List (String × α)) :
    List.countP p (alistInsert k v l) ≤
      List.countP p l + (if p (k, v) then 1 else 0) := by
  induction l with
  | nil => simp [alistInsert, List.countP_cons]
  | cons hd tl ih =>
    obtain ⟨k', v'⟩ := hd
    by_cases hk : k' = k
    · subst hk
      simp only [alistInsert, if_true, eq_self_iff_true, List.countP_cons]
      omega
    · simp only [alistInsert, if_neg hk, List.countP_cons]
      omega

theorem countP_alistPop_le {α : Type} (p : String × α → Bool) (k : String)
    (l : List (String × α)) :
    List.countP p (alistPop k l).2 ≤ List.countP p l := by
  induction l with
  | nil => simp [alistPop]
  | cons hd tl ih =>
    obtain ⟨k', v⟩ := hd
    by_cases hk : k' = k
    · subst hk
      simp only [alistPop, if_true, eq_self_iff_true, List.countP_cons]
      omega
    · simp only [alistPop, if_neg hk, List.countP_cons]
      omega

theorem can_interact_no_active {st : IMState} {a b : String}
    {ty : InteractionType} {cd now : Rat}
    (hok : can_interact st a b ty cd now = true) :
    ∀ q ∈ st.active, a ∉ q.2.participant_ids ∧ b ∉ q.2.participant_ids := by
  unfold can_interact at hok
  split at hok
  · exact absurd hok (by simp)
  · rename_i hany
    intro q hq
    rw [List.any_eq_true] at hany
    push_neg at hany
    have := hany q hq
    simpa using this

theorem atMostOneActive_step {s t : IMState} (hstep : MStep s t)
    (hinv : atMostOneActive s) : atMostOneActive t := by
  cases hstep with
  | start a b ty cd now ctx id hok =>
    intro X
    have hno := can_interact_no_active hok
    simp only [start_interaction]
    by_cases hX : X ∈ ([a, b] : List String)
    · have hzero :
          s.active.countP (fun p => decide (X ∈ p.2.participant_ids)) = 0 := by
        rw [List.countP_eq_zero]
        intro q hq
        have := hno q hq
        rcases List.mem_pair.mp hX with rfl | rfl
        · simpa using this.1
        · simpa using this.2
      calc List.countP (fun p => decide (X ∈ p.2.participant_ids))
            (alistInsert id
              { type := ty, initiator_id := a, participant_ids := [a, b],
                id := id, start_time := now, context := ctx } s.active)
          ≤ _ + _ := countP_alistInsert_le _ _ _ _
        _ ≤ 1 := by rw [hzero]; split <;> omega
    · calc List.countP (fun p => decide (X ∈ p.2.participant_ids))
            (alistInsert id
              { type := ty, initiator_id := a, participant_ids := [a, b],
                id := id, start_time := now, context := ctx } s.active)
          ≤ _ + _ := countP_alistInsert_le _ _ _ _
        _ ≤ 1 := by
            simp only [decide_eq_true_eq]
            rw [if_neg hX]
            simpa using hinv X
  | complete id outcome effects now =>
    intro X
    unfold complete_interaction
    rcases hpop : alistPop id s.active with ⟨found, rest⟩
    cases found with
    | none => simpa using hinv X
    | some i0 =>
      have hle : List.countP (fun p => decide (X ∈ p.2.participant_ids)) rest ≤
          List.countP (fun p => decide (X ∈ p.2.participant_ids)) s.active := by
        have h1 := countP_alistPop_le (fun p => decide (X ∈ p.2.participant_ids)) id s.active
        rw [hpop] at h1
        exact h1
      simpa using le_trans hle (hinv X)

theorem mReachable_atMostOneActive {st : IMState} (h : MReachable st) :
    atMostOneActive st := by
  induction h with
  | refl => intro X; simp [IMState.init]
  | tail _ hstep ih => exact atMostOneActive_step hstep ih

/-- C1.  Mutual exclusion of interactions: in every manager state
reachable under the runner protocol (`can_interact` checked immediately
before `start_interaction`, `complete_interaction` on completion), every
agent `X` is a participant of at most one active interaction. -/
theorem C1_mutual_exclusion (st : IMState) (hreach : MReachable st) (X : String) :
    st.active.countP (fun p => decide (X ∈ p.2.participant_ids)) ≤ 1 :=
  mReachable_atMostOneActive hreach X

theorem alistPop_fst {α : Type} (k : String) (l : List (String × α)) :
    (alistPop k l).1 = alistLookup k l := by
  induction l with
  | nil => rfl
  | cons hd tl ih =>
    obtain ⟨k', v⟩ := hd
    by_cases hk : k' = k
    · simp [alistPop, alistLookup, hk]
    · simp [alistPop, alistLookup, hk, ih]

theorem alistLookup_alistInsert_self {α : Type} (k : String) (v : α)
    (l : List (String × α)) : alistLookup k (alistInsert k v l) = some v := by
  induction l with
  | nil => simp [alistInsert, alistLookup]
  | cons hd tl ih =>
    obtain ⟨k', v'⟩ := hd
    by_cases hk : k' = k
    · simp [alistInsert, alistLookup, hk]
    · simp [alistInsert, alistLookup, hk, ih]

theorem alistLookup_alistInsert_ne {α : Type} (k k' : String) (v : α)
    (l : List (String × α)) (h : k' ≠ k) :
    alistLookup k (alistInsert k' v l) = alistLookup k l := by
  have h' : k ≠ k' := Ne.symm h
  induction l with
  | nil => simp [alistInsert, alistLookup, h]
  | cons hd tl ih =>
    obtain ⟨k'', v''⟩ := hd
    by_cases hk : k'' = k'
    · simp [alistInsert, alistLookup, hk, h, h']
    · by_cases hk2 : k'' = k
      · simp [alistInsert, alistLookup, hk, hk2, h']
      · simp [alistInsert, alistLookup, hk, hk2, ih]

theorem cdLookup_cdInsert_self (ty : InteractionType) (t : Rat)
    (l : List (InteractionType × Rat)) : cdLookup ty (cdInsert ty t l) = some t := by
  induction l with
  | nil => simp [cdInsert, cdLookup]
  | cons hd tl ih =>
    obtain ⟨ty', t'⟩ := hd
    by_cases hty : ty' = ty
    · simp [cdInsert, cdLookup, hty]
    · simp [cdInsert, cdLookup, hty, ih]

/-- Completing an interaction changes neither its participants … -/
theorem Interaction.complete_participant_ids (i : Interaction) (o : String)
    (e : Option (List (String × String))) (t : Rat) :
    (i.complete o e t).participant_ids = i.participant_ids := rfl

/-- … nor its type. -/
theorem Interaction.complete_type (i : Interaction) (o : String)
    (e : Option (List (String × String))) (t : Rat) :
    (i.complete o e t).type = i.type := rfl

/-- Shape of `complete_interaction` when the id is present in the
active map. -/
theorem complete_interaction_found (st : IMState) (iid outcome : String)
    (effects : Option (List (String × String))) (now : Rat) (i0 : Interaction)
    (hfind : alistLookup iid st.active = some i0) :
    complete_interaction st iid outcome effects now =
      (some (i0.complete outcome effects now),
       { st with
         active := (alistPop iid st.active).2
         cooldowns := stampCooldowns i0.participant_ids i0.type now st.cooldowns
         history := boundedAppend st.history (i0.complete outcome effects now) st.max_history
         successful_interactions :=
           if outcome ∈ ["success", "positive", "completed"] then
             st.successful_interactions + 1
           else st.successful_interactions }) := by
  unfold complete_interaction
  have h1 : (alistPop iid st.active).1 = some i0 := by
    rw [alistPop_fst]; exact hfind
  rcases hpop : alistPop iid st.active with ⟨found, rest⟩
  rw [hpop] at h1
  simp only at h1
  subst h1
  simp [Interaction.complete_participant_ids, Interaction.complete_type]

/-- Shape of `complete_interaction` when the id is absent: it returns
`None` and the state is untouched. -/
theorem complete_interaction_missing (st : IMState) (iid outcome : String)
    (effects : Option (List (String × String))) (now : Rat)
    (hfind : alistLookup iid st.active = none) :
    complete_interaction st iid outcome effects now = (none, st) := by
  unfold complete_interaction
  have h1 : (alistPop iid st.active).1 = none := by
    rw [alistPop_fst]; exact hfind
  rcases hpop : alistPop iid st.active with ⟨found, rest⟩
  rw [hpop] at h1
  simp only at h1
  subst h1
  rfl

/-- Witness for C1 at a concrete two-step reachable state: after agent
`a` starts a conversation with `b` from the fresh manager, `a` is in at
most one active interaction. -/
theorem C1_mutual_exclusion_witness :
    ((start_interaction IMState.init InteractionType.CONVERSATION "a" ["a", "b"]
        [] "i1" 0).2.active.countP
      (fun p => decide ("a" ∈ p.2.participant_ids))) ≤ 1 :=
  C1_mutual_exclusion _
    (Relation.ReflTransGen.single
      (MStep.start IMState.init "a" "b" InteractionType.CONVERSATION 5 0 [] "i1"
        (by decide)))
    "a"

theorem stampedAt_stamp_one (X a : String) (ty : InteractionType) (now : Rat)
    (cds : List (String × List (InteractionType × Rat)))
    (h : stampedAt X ty now cds) :
    stampedAt X ty now
      (alistInsert a (cdInsert ty now ((alistLookup a cds).getD [])) cds) := by
  obtain ⟨inner, hl, hc⟩ := h
  by_cases hax : a = X
  · subst hax
    refine ⟨cdInsert ty now ((alistLookup a cds).getD []), ?_, ?_⟩
    · exact alistLookup_alistInsert_self _ _ _
    · exact cdLookup_cdInsert_self _ _ _
  · exact ⟨inner, by rw [alistLookup_alistInsert_ne _ _ _ _ hax]; exact hl, hc⟩

theorem stampedAt_stampCooldowns_preserved (X : String) (ty : InteractionType)
    (now : Rat) (parts : List String)
    (cds : List (String × List (InteractionType × Rat)))
    (h : stampedAt X ty now cds) :
    stampedAt X ty now (stampCooldowns parts ty now cds) := by
  induction parts generalizing cds with
  | nil => exact h
  | cons a rest ih =>
    exact ih _ (stampedAt_stamp_one X a ty now cds h)

/-- After the stamping loop of `complete_interaction`, every
participant's cooldown for the completed type reads `now`. -/
theorem stampCooldowns_stamps (X : String) (ty : InteractionType) (now : Rat)
    (parts : List String) :
    ∀ cds : List (String × List (InteractionType × Rat)), X ∈ parts →
      stampedAt X ty now (stampCooldowns parts ty now cds) := by
  induction parts with
  | nil => intro cds hX; cases hX
  | cons a rest ih =>
    intro cds hX
    rcases List.mem_cons.mp hX with rfl | hmem
    · by_cases hr : X ∈ rest
      · exact ih _ hr
      · have hone : stampedAt X ty now
            (alistInsert X (cdInsert ty now ((alistLookup X cds).getD [])) cds) :=
          ⟨cdInsert ty now ((alistLookup X cds).getD []),
            alistLookup_alistInsert_self _ _ _, cdLookup_cdInsert_self _ _ _⟩
        exact stampedAt_stampCooldowns_preserved X ty now rest _ hone
    · exact ih _ hmem

/-- C5.  Cooldown enforcement: let `st'` be the manager state right
after agents `X` and `Y` complete a kind-`T` interaction at time `t`,
and suppose neither is a participant of any remaining active
interaction.  For any positive cooldown `c`, `can_interact X Y T c` is
false at time `t` (zero elapsed seconds), and true at any time `t'`
with at least `c` seconds elapsed since the completion. -/
theorem C5_cooldown_enforcement (st : IMState) (iid X Y outcome : String)
    (effects : Option (List (String × String))) (T : InteractionType)
    (c t : Rat) (i0 : Interaction)
    (hfind : alistLookup iid st.active = some i0)
    (hT : i0.type = T)
    (hX : X ∈ i0.participant_ids) (hY : Y ∈ i0.participant_ids)
    (hc : 0 < c)
    (hquiet : ∀ q ∈ (complete_interaction st iid outcome effects t).2.active,
        X ∉ q.2.participant_ids ∧ Y ∉ q.2.participant_ids) :
    can_interact (complete_interaction st iid outcome effects t).2 X Y T c t = false ∧
    ∀ t' : Rat, c ≤ t' - t →
      can_interact (complete_interaction st iid outcome effects t).2 X Y T c t' = true := by
  have hshape := complete_interaction_found st iid outcome effects t i0 hfind
  have hany : ((complete_interaction st iid outcome effects t).2.active.any
      (fun p => decide (X ∈ p.2.participant_ids) || decide (Y ∈ p.2.participant_ids)))
      = false := by
    rw [List.any_eq_false]
    intro q hq
    have := hquiet q hq
    simp [this.1, this.2]
  have hcds : (complete_interaction st iid outcome effects t).2.cooldowns =
      stampCooldowns i0.participant_ids i0.type t st.cooldowns := by
    rw [hshape]
  have hstamp : stampedAt X T t (complete_interaction st iid outcome effects t).2.cooldowns := by
    rw [hcds, ← hT]
    exact stampCooldowns_stamps X i0.type t i0.participant_ids st.cooldowns hX
  obtain ⟨inner, hl, hcd⟩ := hstamp
  constructor
  · unfold can_interact
    simp [hany, hl, hcd, sub_self, hc]
  · intro t' ht'
    unfold can_interact
    simp [hany, hl, hcd, not_lt.mpr ht']

/-- Witness for C5: after `x` and `y` complete a conversation started at
time 0 and completed at time 1 on a fresh manager, `can_interact` with a
5-second cooldown is false at time 1 and true at time 6. -/
theorem C5_cooldown_enforcement_witness :
    can_interact
      (complete_interaction
        (start_interaction IMState.init InteractionType.CONVERSATION "x" ["x", "y"]
          [] "i1" 0).2 "i1" "completed" none 1).2
      "x" "y" InteractionType.CONVERSATION 5 1 = false ∧
    can_interact
      (complete_interaction
        (start_interaction IMState.init InteractionType.CONVERSATION "x" ["x", "y"]
          [] "i1" 0).2 "i1" "completed" none 1).2
      "x" "y" InteractionType.CONVERSATION 5 6 = true := by
  have h := C5_cooldown_enforcement
    (start_interaction IMState.init InteractionType.CONVERSATION "x" ["x", "y"]
      [] "i1" 0).2 "i1" "x" "y" "completed" none InteractionType.CONVERSATION 5 1
    { type := InteractionType.CONVERSATION, initiator_id := "x",
      participant_ids := ["x", "y"], id := "i1", start_time := 0 }
    (by decide) (by decide) (by decide) (by decide) (by norm_num)
    (by decide)
  exact ⟨h.1, h.2 6 (by norm_num)⟩

/-- C10.  Completing an unknown interaction id is a no-op: the call
returns `None` and every component of the manager state — active map,
cooldown table, history, and both counters — is unchanged. -/
theorem C10_complete_unknown_id (st : IMState) (iid outcome : String)
    (effects : Option (List (String × String))) (now : Rat)
    (hfind : alistLookup iid st.active = none) :
    (complete_interaction st iid outcome effects now).1 = none ∧
    (complete_interaction st iid outcome effects now).2 = st := by
  rw [complete_interaction_missing st iid outcome effects now hfind]
  exact ⟨rfl, rfl⟩

/-- Witness for C10: completing id "i9" on a fresh manager (whose active
map is empty) returns `None` and leaves the state equal to the initial
state. -/
theorem C10_complete_unknown_id_witness :
    (complete_interaction IMState.init "i9" "success" none 3).1 = none ∧
    (complete_interaction IMState.init "i9" "success" none 3).2 = IMState.init :=
  C10_complete_unknown_id IMState.init "i9" "success" none 3 (by decide)

theorem pos_not_neg_outcome (o : String)
    (h : o ∈ ["success", "positive", "completed"]) :
    o ∉ ["failure", "negative", "conflict"] := by
  intro h2
  simp only [List.mem_cons, List.not_mem_nil, or_false] at h
  rcases h with rfl | rfl | rfl <;> revert h2 <;> decide

/-- The score fold of `get_relationship_score` as a closed form:
starting value plus 0.1 per positive outcome minus 0.15 per
negative/conflict outcome. -/
theorem score_foldl (l : List Interaction) (s : Rat) :
    l.foldl
      (fun s i =>
        if i.outcome ∈ ["success", "positive", "completed"] then s + 0.1
        else if i.outcome ∈ ["failure", "negative", "conflict"] then s - 0.15
        else s)
      s
    = s + (l.countP (fun i => decide (i.outcome ∈ ["success", "positive", "completed"])) : Rat) * 0.1
        - (l.countP (fun i => decide (i.outcome ∈ ["failure", "negative", "conflict"])) : Rat) * 0.15 := by
  induction l generalizing s with
  | nil => simp
  | cons i tl ih =>
    simp only [List.foldl_cons, List.countP_cons]
    by_cases hp : i.outcome ∈ ["success", "positive", "completed"]
    · have hn := pos_not_neg_outcome i.outcome hp
      rw [if_pos hp, ih]
      simp only [hp, hn, decide_eq_true_eq, decide_True, decide_False,
        if_true, if_false, ite_true, ite_false]
      push_cast
      ring
    · by_cases hn : i.outcome ∈ ["failure", "negative", "conflict"]
      · rw [if_neg hp, if_pos hn, ih]
        simp only [hp, hn, decide_eq_true_eq, decide_True, decide_False,
          if_true, if_false, ite_true, ite_false]
        push_cast
        ring
      · rw [if_neg hp, if_neg hn, ih]
        simp only [hp, hn, decide_eq_true_eq, decide_True, decide_False,
          if_true, if_false, ite_true, ite_false]
        push_cast
        ring

/-- C6.  Relationship score correctness: for every pair of agents the
score equals the clamp to [−1, 1] of (+0.1 per shared positive-outcome
interaction − 0.15 per shared negative/conflict-outcome interaction),
and in particular it always lies in [−1, 1], for any history. -/
theorem C6_relationship_score (st : IMState) (a b : String) :
    (get_relationship_score st a b =
      max (-1) (min 1
        (((st.history.filter (fun i =>
              decide (a ∈ i.participant_ids) && decide (b ∈ i.participant_ids))).countP
            (fun i => decide (i.outcome ∈ ["success", "positive", "completed"])) : Rat) * 0.1
         - ((st.history.filter (fun i =>
              decide (a ∈ i.participant_ids) && decide (b ∈ i.participant_ids))).countP
            (fun i => decide (i.outcome ∈ ["failure", "negative", "conflict"])) : Rat) * 0.15)))
    ∧ -1 ≤ get_relationship_score st a b
    ∧ get_relationship_score st a b ≤ 1 := by
  have hmain : get_relationship_score st a b =
      max (-1) (min 1
        (((st.history.filter (fun i =>
              decide (a ∈ i.participant_ids) && decide (b ∈ i.participant_ids))).countP
            (fun i => decide (i.outcome ∈ ["success", "positive", "completed"])) : Rat) * 0.1
         - ((st.history.filter (fun i =>
              decide (a ∈ i.participant_ids) && decide (b ∈ i.participant_ids))).countP
            (fun i => decide (i.outcome ∈ ["failure", "negative", "conflict"])) : Rat) * 0.15)) := by
    unfold get_relationship_score
    by_cases hemp : (st.history.filter (fun i =>
        decide (a ∈ i.participant_ids) && decide (b ∈ i.participant_ids))).isEmpty
    · rw [if_pos hemp]
      rw [List.isEmpty_iff] at hemp
      rw [hemp]
      norm_num
    · rw [if_neg hemp, score_foldl]
      norm_num
  refine ⟨hmain, ?_, ?_⟩
  · rw [hmain]; exact le_max_left _ _
  · rw [hmain]
    exact max_le (by norm_num) (min_le_left _ _)

theorem boundedAppend_eq_drop {α : Type} (h : List α) (x : α) (maxH : Nat)
    (hm : 0 < maxH) :
    boundedAppend h x maxH = (h ++ [x]).drop (h.length + 1 - maxH) := by
  unfold boundedAppend pySliceLast
  by_cases hlen : (h ++ [x]).length > maxH
  · rw [if_pos hlen, if_neg (Nat.pos_iff_ne_zero.mp hm)]
    simp [List.length_append]
  · rw [if_neg hlen]
    rw [not_lt] at hlen
    simp only [List.length_append, List.length_cons, List.length_nil] at hlen
    have : h.length + 1 - maxH = 0 := by omega
    rw [this, List.drop_zero]

theorem boundedAppend_length_le {α : Type} (h : List α) (x : α) (maxH : Nat)
    (hm : 0 < maxH) : (boundedAppend h x maxH).length ≤ maxH := by
  rw [boundedAppend_eq_drop h x maxH hm]
  simp only [List.length_drop, List.length_append, List.length_cons, List.length_nil]
  omega

/-- `send` leaves the history untouched when the message is expired,
otherwise appends the message to the bounded history. -/
theorem send_history (st : BusState) (now : Rat) (m : Message)
    (he : m.is_expired now = false) :
    (MessageBus.send st now m).2.history = boundedAppend st.history m st.max_history := by
  cases hr : m.receiver_id with
  | none => simp [MessageBus.send, he, hr, broadcast]
  | some r =>
    cases hl : alistLookup r st.inboxes with
    | none => simp [MessageBus.send, he, hr, direct_send, hl]
    | some q => simp [MessageBus.send, he, hr, direct_send, hl]

theorem send_max_history (st : BusState) (now : Rat) (m : Message) :
    (MessageBus.send st now m).2.max_history = st.max_history := by
  by_cases he : m.is_expired now = true
  · simp [MessageBus.send, he]
  · rw [Bool.not_eq_true] at he
    cases hr : m.receiver_id with
    | none => simp [MessageBus.send, he, hr, broadcast]
    | some r =>
      cases hl : alistLookup r st.inboxes with
      | none => simp [MessageBus.send, he, hr, direct_send, hl]
      | some q => simp [MessageBus.send, he, hr, direct_send, hl]

/-- C8.  Bounded histories with oldest-first eviction: after any
`complete_interaction` on a manager whose history respects its (positive)
bound, the history length stays within `max_history`, and when the id
was found the new history is exactly the most recent suffix of the old
history plus the completed interaction; likewise for the message-bus
history after any `send`. -/
theorem C8_bounded_history (stM : IMState) (iid outcome : String)
    (effects : Option (List (String × String))) (nowM : Rat)
    (stB : BusState) (nowB : Rat) (m : Message)
    (hM : 0 < stM.max_history) (hMpre : stM.history.length ≤ stM.max_history)
    (hB : 0 < stB.max_history) (hBpre : stB.history.length ≤ stB.max_history) :
    ((complete_interaction stM iid outcome effects nowM).2.history.length ≤ stM.max_history ∧
     ∀ i0, alistLookup iid stM.active = some i0 →
       (complete_interaction stM iid outcome effects nowM).2.history =
         (stM.history ++ [i0.complete outcome effects nowM]).drop
           (stM.history.length + 1 - stM.max_history)) ∧
    ((MessageBus.send stB nowB m).2.history.length ≤ stB.max_history ∧
     (m.is_expired nowB = false →
       (MessageBus.send stB nowB m).2.history =
         (stB.history ++ [m]).drop (stB.history.length + 1 - stB.max_history))) := by
  refine ⟨⟨?_, ?_⟩, ⟨?_, ?_⟩⟩
  · cases hfind : alistLookup iid stM.active with
    | none =>
      rw [complete_interaction_missing stM iid outcome effects nowM hfind]
      exact hMpre
    | some i0 =>
      rw [complete_interaction_found stM iid outcome effects nowM i0 hfind]
      exact boundedAppend_length_le _ _ _ hM
  · intro i0 hfind
    rw [complete_interaction_found stM iid outcome effects nowM i0 hfind]
    exact boundedAppend_eq_drop _ _ _ hM
  · by_cases he : m.is_expired nowB = true
    · unfold MessageBus.send
      rw [he]
      simpa using hBpre
    · rw [send_history stB nowB m (by simpa using he)]
      exact boundedAppend_length_le _ _ _ hB
  · intro he
    rw [send_history stB nowB m he]
    exact boundedAppend_eq_drop _ _ _ hB

/-- Witness for C8: a manager with capacity 2 and a full history evicts
its oldest entry on completion, and a bus with capacity 1 keeps only the
newest message. -/
theorem C8_bounded_history_witness :
    ((complete_interaction sampleManagerFull "i1" "completed" none 1).2.history.length ≤ 2) ∧
    ((MessageBus.send sampleBusFull 0 sampleMsgDirect).2.history.length ≤ 1) := by
  have h := C8_bounded_history sampleManagerFull "i1" "completed" none 1
    sampleBusFull 0 sampleMsgDirect
    (by decide) (by decide) (by decide) (by decide)
  exact ⟨h.1.1, h.2.1⟩

/-- C7.  Delivery failures are non-fatal booleans: an expired message is
dropped with `False` and no state change at all, and a direct message to
an unregistered receiver yields `False` with no mailbox touched.  (The
embedding of `send` is a total function: no code path in
`send`/`_direct_send` raises.) -/
theorem C7_delivery_failures (st : BusState) (now : Rat) (m : Message) :
    (m.is_expired now = true → MessageBus.send st now m = (false, st)) ∧
    (∀ r, m.receiver_id = some r → m.is_expired now = false →
      alistLookup r st.inboxes = none →
      (MessageBus.send st now m).1 = false ∧
      (MessageBus.send st now m).2.inboxes = st.inboxes) := by
  constructor
  · intro he
    simp [MessageBus.send, he]
  · intro r hr he hl
    constructor <;> simp [MessageBus.send, he, hr, direct_send, hl]

/-- Witness for C7: on a concrete two-agent bus, sending an expired
message at time 1 returns false and changes nothing, and sending to the
unregistered receiver "ghost" returns false and touches no mailbox. -/
theorem C7_delivery_failures_witness :
    MessageBus.send sampleBusFull 1 sampleMsgExpired = (false, sampleBusFull) ∧
    ((MessageBus.send sampleBusFull 1 sampleMsgToGhost).1 = false ∧
     (MessageBus.send sampleBusFull 1 sampleMsgToGhost).2.inboxes = sampleBusFull.inboxes) :=
  ⟨(C7_delivery_failures sampleBusFull 1 sampleMsgExpired).1 (by decide),
   (C7_delivery_failures sampleBusFull 1 sampleMsgToGhost).2 "ghost" rfl
     (by decide) (by decide)⟩

theorem broadcastDeliver_count (sender : String) (m : Message)
    (l : List (String × List Message)) :
    (broadcastDeliver sender m l).2 = l.countP (fun p => decide (p.1 ≠ sender)) := by
  induction l with
  | nil => rfl
  | cons hd tl ih =>
    obtain ⟨aid, q⟩ := hd
    by_cases ha : aid = sender
    · simp [broadcastDeliver, ha, List.countP_cons, ih]
    · simp [broadcastDeliver, ha, List.countP_cons, ih]

/-- C9.  A non-expired broadcast is reported delivered iff some mailbox
other than the sender's exists at send time; in particular a broadcast
on a bus where only the sender is registered returns `False` even though
nothing went wrong. -/
theorem C9_broadcast_delivery_iff (st : BusState) (now : Rat) (m : Message)
    (hb : m.receiver_id = none) (he : m.is_expired now = false) :
    ((MessageBus.send st now m).1 = true ↔
      ∃ p ∈ st.inboxes, p.1 ≠ m.sender_id) ∧
    ((∀ p ∈ st.inboxes, p.1 = m.sender_id) →
      (MessageBus.send st now m).1 = false) := by
  have hiff : (MessageBus.send st now m).1 = true ↔
      ∃ p ∈ st.inboxes, p.1 ≠ m.sender_id := by
    simp [MessageBus.send, he, hb, broadcast, broadcastDeliver_count,
      List.countP_pos]
  refine ⟨hiff, fun hall => ?_⟩
  rw [Bool.eq_false_iff]
  intro htrue
  obtain ⟨p, hp, hne⟩ := hiff.mp htrue
  exact hne (hall p hp)

/-- Witness for C9: broadcasting on a bus where only the sender is
registered returns false, and on a two-agent bus returns true. -/
theorem C9_broadcast_delivery_iff_witness :
    (MessageBus.send (register_agent BusState.init "a") 0 sampleMsgBroadcast).1 = false ∧
    (MessageBus.send sampleBusFull 0 sampleMsgBroadcast).1 = true :=
  ⟨(C9_broadcast_delivery_iff (register_agent BusState.init "a") 0 sampleMsgBroadcast
      rfl rfl).2 (by decide),
   (C9_broadcast_delivery_iff sampleBusFull 0 sampleMsgBroadcast rfl rfl).1.mpr
     ⟨("b", []), by decide, by decide⟩⟩

theorem broadcastDeliver_lookup_ne (sender : String) (m : Message) (aid : String)
    (l : List (String × List Message)) (hne : aid ≠ sender) :
    alistLookup aid (broadcastDeliver sender m l).1 =
      (alistLookup aid l).map (fun q => q ++ [m]) := by
  induction l with
  | nil => rfl
  | cons hd tl ih =>
    obtain ⟨k, q⟩ := hd
    by_cases hk : k = sender
    · subst hk
      have : k ≠ aid := Ne.symm hne
      simp [broadcastDeliver, alistLookup, this, ih]
    · by_cases hka : k = aid
      · subst hka
        simp [broadcastDeliver, hk, alistLookup]
      · simp [broadcastDeliver, hk, alistLookup, hka, ih]

theorem broadcastDeliver_lookup_self (sender : String) (m : Message)
    (l : List (String × List Message)) :
    alistLookup sender (broadcastDeliver sender m l).1 = alistLookup sender l := by
  induction l with
  | nil => rfl
  | cons hd tl ih =>
    obtain ⟨k, q⟩ := hd
    by_cases hk : k = sender
    · subst hk
      simp [broadcastDeliver, alistLookup, ih]
    · simp [broadcastDeliver, hk, alistLookup, ih]

/-- C4.  Broadcast completeness: a non-expired broadcast from `A` is
appended to the mailbox of every agent registered at the moment of the
send except `A`, and `A`'s own mailbox is untouched. -/
theorem C4_broadcast_completeness (st : BusState) (now : Rat) (m : Message)
    (hb : m.receiver_id = none) (he : m.is_expired now = false) :
    (∀ aid q, aid ≠ m.sender_id → alistLookup aid st.inboxes = some q →
       alistLookup aid (MessageBus.send st now m).2.inboxes = some (q ++ [m])) ∧
    (alistLookup m.sender_id (MessageBus.send st now m).2.inboxes =
       alistLookup m.sender_id st.inboxes) := by
  have hinb : (MessageBus.send st now m).2.inboxes =
      (broadcastDeliver m.sender_id m st.inboxes).1 := by
    simp [MessageBus.send, he, hb, broadcast]
  constructor
  · intro aid q hne hl
    rw [hinb, broadcastDeliver_lookup_ne _ _ _ _ hne, hl]
    rfl
  · rw [hinb, broadcastDeliver_lookup_self]

/-- Witness for C4: on the concrete two-agent bus, a broadcast from "a"
lands in "b"'s mailbox and not in "a"'s. -/
theorem C4_broadcast_completeness_witness :
    alistLookup "b" (MessageBus.send sampleBusFull 0 sampleMsgBroadcast).2.inboxes =
      some ([] ++ [sampleMsgBroadcast]) ∧
    alistLookup "a" (MessageBus.send sampleBusFull 0 sampleMsgBroadcast).2.inboxes =
      alistLookup "a" sampleBusFull.inboxes :=
  ⟨(C4_broadcast_completeness sampleBusFull 0 sampleMsgBroadcast rfl rfl).1 "b" []
     (by decide) (by decide),
   (C4_broadcast_completeness sampleBusFull 0 sampleMsgBroadcast rfl rfl).2⟩

/-- A `send` can only extend any given mailbox at its tail (or leave it
alone). -/
theorem send_inbox_extend (st : BusState) (now : Rat) (m : Message) (B : String) :
    ∃ t, inboxOf (MessageBus.send st now m).2 B = inboxOf st B ++ t := by
  by_cases he : m.is_expired now = true
  · exact ⟨[], by simp [MessageBus.send, he]⟩
  · rw [Bool.not_eq_true] at he
    cases hr : m.receiver_id with
    | none =>
      have hinb : (MessageBus.send st now m).2.inboxes =
          (broadcastDeliver m.sender_id m st.inboxes).1 := by
        simp [MessageBus.send, he, hr, broadcast]
      by_cases hB : B = m.sender_id
      · subst hB
        exact ⟨[], by simp [inboxOf, hinb, broadcastDeliver_lookup_self]⟩
      · cases hq : alistLookup B st.inboxes with
        | none =>
          exact ⟨[], by simp [inboxOf, hinb,
            broadcastDeliver_lookup_ne _ _ _ _ hB, hq]⟩
        | some q =>
          exact ⟨[m], by simp [inboxOf, hinb,
            broadcastDeliver_lookup_ne _ _ _ _ hB, hq]⟩
    | some r =>
      cases hq : alistLookup r st.inboxes with
      | none =>
        exact ⟨[], by simp [MessageBus.send, he, hr, direct_send, hq, inboxOf]⟩
      | some q =>
        by_cases hBr : B = r
        · subst hBr
          refine ⟨[m], ?_⟩
          simp [MessageBus.send, he, hr, direct_send, hq, inboxOf,
            alistLookup_alistInsert_self]
        · refine ⟨[], ?_⟩
          have hne : B ≠ r := hBr
          simp [MessageBus.send, he, hr, direct_send, hq, inboxOf,
            alistLookup_alistInsert_ne _ _ _ _ (Ne.symm hne)]

/-- A batch of sends can only extend any given mailbox at its tail. -/
theorem applySends_inbox_extend (ops : List (Rat × Message)) :
    ∀ st : BusState, ∀ B : String,
      ∃ t, inboxOf (applySends st ops) B = inboxOf st B ++ t := by
  induction ops with
  | nil => exact fun st B => ⟨[], by simp [applySends]⟩
  | cons op rest ih =>
    intro st B
    obtain ⟨t1, h1⟩ := send_inbox_extend st op.1 op.2 B
    obtain ⟨t2, h2⟩ := ih (MessageBus.send st op.1 op.2).2 B
    refine ⟨t1 ++ t2, ?_⟩
    have : applySends st (op :: rest) =
        applySends (MessageBus.send st op.1 op.2).2 rest := by
      simp [applySends]
    rw [this, h2, h1, List.append_assoc]

/-- `send` never removes a mailbox: a registered agent stays
registered. -/
theorem send_lookup_isSome (st : BusState) (now : Rat) (m : Message) (B : String)
    (h : (alistLookup B st.inboxes).isSome = true) :
    (alistLookup B (MessageBus.send st now m).2.inboxes).isSome = true := by
  by_cases he : m.is_expired now = true
  · simpa [MessageBus.send, he] using h
  · rw [Bool.not_eq_true] at he
    cases hr : m.receiver_id with
    | none =>
      have hinb : (MessageBus.send st now m).2.inboxes =
          (broadcastDeliver m.sender_id m st.inboxes).1 := by
        simp [MessageBus.send, he, hr, broadcast]
      by_cases hB : B = m.sender_id
      · subst hB
        rw [hinb, broadcastDeliver_lookup_self]
        exact h
      · rw [hinb, broadcastDeliver_lookup_ne _ _ _ _ hB]
        simpa using h
    | some r =>
      cases hq : alistLookup r st.inboxes with
      | none =>
        simpa [MessageBus.send, he, hr, direct_send, hq] using h
      | some q =>
        by_cases hBr : B = r
        · subst hBr
          simp [MessageBus.send, he, hr, direct_send, hq,
            alistLookup_alistInsert_self]
        · have hne : B ≠ r := hBr
          simpa [MessageBus.send, he, hr, direct_send, hq,
            alistLookup_alistInsert_ne _ _ _ _ (Ne.symm hne)] using h

/-- A batch of sends keeps every registered agent registered. -/
theorem applySends_lookup_isSome (ops : List (Rat × Message)) :
    ∀ st : BusState, ∀ B : String,
      (alistLookup B st.inboxes).isSome = true →
      (alistLookup B (applySends st ops).inboxes).isSome = true := by
  induction ops with
  | nil => exact fun st B h => by simpa [applySends] using h
  | cons op rest ih =>
    intro st B h
    have : applySends st (op :: rest) =
        applySends (MessageBus.send st op.1 op.2).2 rest := by
      simp [applySends]
    rw [this]
    exact ih _ B (send_lookup_isSome st op.1 op.2 B h)

/-- A non-expired direct `send` to a registered receiver appends to the
tail of exactly that mailbox. -/
theorem send_direct_appends (st : BusState) (now : Rat) (m : Message)
    (B : String) (q : List Message) (hr : m.receiver_id = some B)
    (he : m.is_expired now = false) (hl : alistLookup B st.inboxes = some q) :
    alistLookup B (MessageBus.send st now m).2.inboxes = some (q ++ [m]) := by
  simp [MessageBus.send, he, hr, direct_send, hl, alistLookup_alistInsert_self]

theorem drainAux_eq (q : List Message) : drainAux q.length q = q := by
  induction q with
  | nil => rfl
  | cons m rest ih => simp [drainAux, get_nowait, ih]

/-- Repeatedly calling `get_nowait` dequeues a mailbox exactly in list
order. -/
theorem drain_eq (q : List Message) : drain q = q := drainAux_eq q

/-- C3.  Per-sender FIFO: if agent `A` sends non-expired direct messages
`m1` and then `m2` to registered agent `B` (with any other `send`
traffic in between), then in the order `B`'s mailbox is dequeued by
repeated `get_nowait` (as `_process_messages` does), `m1` appears
strictly before `m2`. -/
theorem C3_per_sender_fifo (st : BusState) (A B : String) (m1 m2 : Message)
    (n1 n2 : Rat) (mid : List (Rat × Message)) (q0 : List Message)
    (h1s : m1.sender_id = A) (h2s : m2.sender_id = A)
    (h1r : m1.receiver_id = some B) (h2r : m2.receiver_id = some B)
    (h1e : m1.is_expired n1 = false) (h2e : m2.is_expired n2 = false)
    (hreg : alistLookup B st.inboxes = some q0) :
    ∃ i j, i < j ∧
      (drain (inboxOf
        (MessageBus.send (applySends (MessageBus.send st n1 m1).2 mid) n2 m2).2
        B)).get? i = some m1 ∧
      (drain (inboxOf
        (MessageBus.send (applySends (MessageBus.send st n1 m1).2 mid) n2 m2).2
        B)).get? j = some m2 := by
  have h1 : alistLookup B (MessageBus.send st n1 m1).2.inboxes = some (q0 ++ [m1]) :=
    send_direct_appends st n1 m1 B q0 h1r h1e hreg
  obtain ⟨t, ht⟩ := applySends_inbox_extend mid (MessageBus.send st n1 m1).2 B
  have hsome : (alistLookup B (applySends (MessageBus.send st n1 m1).2 mid).inboxes).isSome
      = true :=
    applySends_lookup_isSome mid (MessageBus.send st n1 m1).2 B (by rw [h1]; rfl)
  obtain ⟨q2, hq2⟩ := Option.isSome_iff_exists.mp hsome
  have hq2eq : q2 = (q0 ++ [m1]) ++ t := by
    have hib1 : inboxOf (MessageBus.send st n1 m1).2 B = q0 ++ [m1] := by
      simp [inboxOf, h1]
    have hib2 : inboxOf (applySends (MessageBus.send st n1 m1).2 mid) B = q2 := by
      simp [inboxOf, hq2]
    rw [hib2, hib1] at ht
    exact ht
  have h3 : alistLookup B
      (MessageBus.send (applySends (MessageBus.send st n1 m1).2 mid) n2 m2).2.inboxes
      = some (q2 ++ [m2]) :=
    send_direct_appends _ n2 m2 B q2 h2r h2e hq2
  have hib3 : inboxOf
      (MessageBus.send (applySends (MessageBus.send st n1 m1).2 mid) n2 m2).2 B
      = q2 ++ [m2] := by
    simp [inboxOf, h3]
  refine ⟨q0.length, q2.length, ?_, ?_, ?_⟩
  · rw [hq2eq]
    simp only [List.length_append, List.length_cons, List.length_nil]
    omega
  · rw [drain_eq, hib3, hq2eq, List.append_assoc (q0 ++ [m1]) t [m2]]
    rw [List.get?_append (by simp)]
    exact List.get?_concat_length q0 m1
  · rw [drain_eq, hib3]
    exact List.get?_concat_length q2 m2

/-- Witness for C3: on a fresh bus with "a" and "b" registered, "a"
sends two direct messages to "b" with an unrelated broadcast in
between; the dequeue order of "b"'s mailbox lists the first strictly
before the second. -/
theorem C3_per_sender_fifo_witness :
    ∃ i j, i < j ∧
      (drain (inboxOf
        (MessageBus.send
          (applySends
            (MessageBus.send (register_agent (register_agent BusState.init "a") "b")
              0 sampleMsgDirect).2
            [(0, sampleMsgBroadcast)])
          0 sampleMsgDirect2).2
        "b")).get? i = some sampleMsgDirect ∧
      (drain (inboxOf
        (MessageBus.send
          (applySends
            (MessageBus.send (register_agent (register_agent BusState.init "a") "b")
              0 sampleMsgDirect).2
            [(0, sampleMsgBroadcast)])
          0 sampleMsgDirect2).2
        "b")).get? j = some sampleMsgDirect2 :=
  C3_per_sender_fifo (register_agent (register_agent BusState.init "a") "b")
    "a" "b" sampleMsgDirect sampleMsgDirect2 0 0 [(0, sampleMsgBroadcast)] []
    rfl rfl rfl rfl rfl rfl (by decide)

/-- C2 counterexample: with an AI decision provider that raises on
every invocation, one decision cycle of the loop still increments
`actions_taken` from 0 to 1 — the exception is caught and selection
falls back to `random.choice` over the available actions, so the
counter does not stop increasing as the claim states. -/
theorem C2_fallback_counterexample :
    (∀ l, aiAlwaysRaises.select_action l = Except.error "AI failure") ∧
    statsIdle0.actions_taken = 0 ∧
    (run_loop_think ctxOnlyAI [actOk] 0 (Except.ok ()) statsIdle0 1).actions_taken = 1 := by
  refine ⟨fun _ => rfl, rfl, ?_⟩
  simp only [run_loop_think, think_and_act, decide_action, execute_action,
    ctxOnlyAI, aiAlwaysRaises, actOk, statsIdle0]
  norm_num

/-- C2 (amended).  Fallback guarantee: if the AI decision provider and
the citizen's fallback decision model both raise on every invocation,
then a decision cycle of the runner loop returns the state to `Idle`,
leaves `actions_taken` unchanged, and propagates no exception out of the
loop (the loop body is a total function whose resulting state is exactly
the input state with `state := Idle` and a fresh decision stamp). -/
theorem C2_fallback_amended (ctx : RunnerCtx) (acts : List RAction) (r : Nat)
    (onAct : Except String Unit) (s : RunnerStats) (now : Rat)
    (ai : AIModel) (dm : DecisionModel)
    (hai : ctx.ai_model = some ai) (huse : ai.use_ai = true)
    (haiRaise : ∀ l, ∃ e, ai.select_action l = Except.error e)
    (hdm : ctx.decision_model = some dm)
    (hdmRaise : ∀ l, ∃ e, dm.select_action l = Except.error e)
    (hstate : s.state = AgentState.IDLE ∨ s.state = AgentState.WAITING)
    (helapsed : ¬(now - s.last_decision_time < ctx.think_interval)) :
    run_loop_think ctx acts r onAct s now =
      { s with state := AgentState.IDLE, last_decision_time := now } := by
  unfold run_loop_think
  rw [if_pos hstate]
  by_cases hacts : acts.isEmpty = true
  · have hda : decide_action ctx acts r = Except.ok none := by
      simp [decide_action, hacts]
    unfold think_and_act
    rw [if_neg helapsed, hda]
  · obtain ⟨e1, he1⟩ := haiRaise acts
    obtain ⟨e2, he2⟩ := hdmRaise acts
    have hda : decide_action ctx acts r = Except.error e2 := by
      simp [decide_action, hacts, hai, hdm, huse, he1, he2]
    unfold think_and_act
    rw [if_neg helapsed, hda]

/-- Witness for the amended C2: with both providers raising, a concrete
cycle at time 1 from rest ends `Idle` with `actions_taken` still 0. -/
theorem C2_fallback_amended_witness :
    run_loop_think ctxBothRaise [actOk] 0 (Except.ok ()) statsIdle0 1 =
      { statsIdle0 with state := AgentState.IDLE, last_decision_time := 1 } :=
  C2_fallback_amended ctxBothRaise [actOk] 0 (Except.ok ()) statsIdle0 1
    aiAlwaysRaises dmAlwaysRaises rfl rfl (fun _ => ⟨"AI failure", rfl⟩) rfl
    (fun _ => ⟨"fallback failure", rfl⟩) (Or.inl rfl) (by norm_num [ctxBothRaise, statsIdle0])
